import Mathlib

/-!
Verification of the convolutional gridding / degridding kernels of
`attic/tConvolveOMP/tConvolveOMP.cc`.

Modelling conventions (shallow embedding, exact arithmetic):

* `std::vector<Value>` buffers (`grid`, `C`, `data`) are modelled as total
  functions from flat indices; `Value = std::complex<float>` is modelled as an
  arbitrary commutative ring `α`, instantiated at `ℤ` or `ℂ` in concrete
  statements.  Buffer sizes enter the statements only through the numeric
  bound hypotheses of the original preconditions.
* `Coord = double` is modelled as `ℚ` where the code only uses field
  operations, comparisons and integer casts (`initCOffset`, the driver's
  frequency table), and as `ℝ` where it uses `sqrt`/`cos`/`exp` (`initC`).
* C++ `int` index arithmetic is modelled on `ℤ`; a C++ `int(x)` cast of a
  floating value truncates toward zero, and `%` on `int` is the truncated
  remainder (`Int.tmod`).
* A loop `for (x = 0; x < k; ++x)` becomes structural recursion on `k`, with
  the pointer/counter value at iteration `x` written in closed form
  (`gind0 + gSize * x` for a pointer advanced by `gSize` once per iteration).
-/

namespace TConvolveOMP

variable {α : Type} [CommRing α]

/-- One `grid[i] += x` store into the flat grid buffer. -/
def updAdd (grid : ℤ → α) (i : ℤ) (x : α) : ℤ → α :=
  fun g => if g = i then grid g + x else grid g

/-- Inner `suppu` loop shared by `gridKernel` and `gridKernelOMP`
(tConvolveOMP.cc:130-132 and 168-170): for `suppu = 0 .. k-1`,
`grid[gind + suppu] += d * C[cind + suppu]`. -/
def axpyLoop (d : α) (C : ℤ → α) (cind gind : ℤ) : ℕ → (ℤ → α) → ℤ → α
  | 0, grid => grid
  | k + 1, grid => updAdd (axpyLoop d C cind gind k grid) (gind + k) (d * C (cind + k))

/-- The `suppv` loop of `gridKernel` for one data point (tConvolveOMP.cc:122-137).
After `v` iterations the grid pointer has advanced by `gSize * v` and the
kernel-table pointer by `sSize * v`, so row `v` writes at grid base
`gind0 + gSize * v` from kernel base `cind0 + sSize * v`. -/
def gridPoint (d : α) (C : ℤ → α) (gSize : ℤ) (sSize : ℕ) (cind0 gind0 : ℤ) :
    ℕ → (ℤ → α) → ℤ → α
  | 0, grid => grid
  | r + 1, grid =>
      axpyLoop d C (cind0 + (sSize : ℤ) * r) (gind0 + gSize * r) sSize
        (gridPoint d C gSize sSize cind0 gind0 r grid)

/-- The `dind` loop of `gridKernel` over the first `n` data points
(tConvolveOMP.cc:116-138), with `gind = iu[dind] + gSize*iv[dind] - support`
and `cind = cOffset[dind]`. -/
def gridLoop (data : ℕ → α) (support : ℕ) (C : ℤ → α) (cOffset iu iv : ℕ → ℤ)
    (gSize : ℤ) : ℕ → (ℤ → α) → ℤ → α
  | 0, grid => grid
  | n + 1, grid =>
      gridPoint (data n) C gSize (2 * support + 1) (cOffset n)
        (iu n + gSize * iv n - support) (2 * support + 1)
        (gridLoop data support C cOffset iu iv gSize n grid)

/-- Sequential scatter kernel `gridKernel` (tConvolveOMP.cc:109-139), run over
`n = data.size()` points. -/
def gridKernel (data : ℕ → α) (n support : ℕ) (C : ℤ → α) (cOffset iu iv : ℕ → ℤ)
    (grid : ℤ → α) (gSize : ℤ) : ℤ → α :=
  gridLoop data support C cOffset iu iv gSize n grid

/-- The rotating row counter of `gridKernelOMP` (tConvolveOMP.cc:158,175-176):
its value before stencil row `s` is processed.  It starts at
`iv % nthreads` (C truncated `%`), and after each row does `row++` followed by
`row = (row >= nthreads) ? 0 : row`. -/
def rowCtr (T : ℕ) (iv0 : ℤ) : ℕ → ℤ
  | 0 => Int.tmod iv0 T
  | s + 1 => if (T : ℤ) ≤ rowCtr T iv0 s + 1 then 0 else rowCtr T iv0 s + 1

/-- The `suppv` loop of `gridKernelOMP` for one data point, as executed by
thread `tid` of `T` (tConvolveOMP.cc:159-177): row `v` is accumulated only when
the rotating counter equals `tid`; the pointers advance every iteration either
way. -/
def gridPointOMP (tid T : ℕ) (d : α) (C : ℤ → α) (gSize : ℤ) (sSize : ℕ)
    (iv0 cind0 gind0 : ℤ) : ℕ → (ℤ → α) → ℤ → α
  | 0, grid => grid
  | r + 1, grid =>
      if rowCtr T iv0 r = (tid : ℤ) then
        axpyLoop d C (cind0 + (sSize : ℤ) * r) (gind0 + gSize * r) sSize
          (gridPointOMP tid T d C gSize sSize iv0 cind0 gind0 r grid)
      else gridPointOMP tid T d C gSize sSize iv0 cind0 gind0 r grid

/-- The `dind` loop of thread `tid` in `gridKernelOMP` (tConvolveOMP.cc:153-178):
every thread scans the whole data vector. -/
def gridLoopOMP (tid T : ℕ) (data : ℕ → α) (support : ℕ) (C : ℤ → α)
    (cOffset iu iv : ℕ → ℤ) (gSize : ℤ) : ℕ → (ℤ → α) → ℤ → α
  | 0, grid => grid
  | n + 1, grid =>
      gridPointOMP tid T (data n) C gSize (2 * support + 1) (iv n) (cOffset n)
        (iu n + gSize * iv n - support) (2 * support + 1)
        (gridLoopOMP tid T data support C cOffset iu iv gSize n grid)

/-- Whole pass of OpenMP thread `tid` (of `T` threads) over the data, i.e. the
body of the `omp parallel` region of `gridKernelOMP` (tConvolveOMP.cc:148-179). -/
def gridThread (tid T : ℕ) (data : ℕ → α) (n support : ℕ) (C : ℤ → α)
    (cOffset iu iv : ℕ → ℤ) (grid : ℤ → α) (gSize : ℤ) : ℤ → α :=
  gridLoopOMP tid T data support C cOffset iu iv gSize n grid

/-- Combination of the first `t0` thread passes of `gridKernelOMP`.  The `T`
threads run concurrently on the shared grid without synchronisation, but their
write sets are pairwise disjoint (row ownership), so every interleaving of the
`+=` stores gives the same grid as applying the passes one after the other. -/
def gridThreadsFold (T : ℕ) (data : ℕ → α) (n support : ℕ) (C : ℤ → α)
    (cOffset iu iv : ℕ → ℤ) (gSize : ℤ) : ℕ → (ℤ → α) → ℤ → α
  | 0, grid => grid
  | t + 1, grid =>
      gridThread t T data n support C cOffset iu iv
        (gridThreadsFold T data n support C cOffset iu iv gSize t grid) gSize

/-- Parallel scatter kernel `gridKernelOMP` (tConvolveOMP.cc:142-182) run with
`T` threads: all `T` per-thread passes applied to the shared grid. -/
def gridKernelOMP (T : ℕ) (data : ℕ → α) (n support : ℕ) (C : ℤ → α)
    (cOffset iu iv : ℕ → ℤ) (grid : ℤ → α) (gSize : ℤ) : ℤ → α :=
  gridThreadsFold T data n support C cOffset iu iv gSize T grid

/-- Set of flat grid cells that thread `tid` of `T` stores to during
`gridKernelOMP`: cell `g` is written while processing data point `dd` at
stencil row `v`, column `u`, provided the rotating row counter equals `tid`
there (tConvolveOMP.cc:159-172). -/
def ompWrites (support : ℕ) (iu iv : ℕ → ℤ) (gSize : ℤ) (n T tid : ℕ) (g : ℤ) : Prop :=
  ∃ dd, dd < n ∧ ∃ v, v < 2 * support + 1 ∧ ∃ u, u < 2 * support + 1 ∧
    rowCtr T (iv dd) v = (tid : ℤ) ∧
    g = iu dd + gSize * iv dd - support + gSize * v + u

/-- Total contribution of thread `tid` to grid cell `g` (used to relate the
parallel and sequential kernels). -/
def threadSum (T : ℕ) (data : ℕ → α) (n support : ℕ) (C : ℤ → α)
    (cOffset iu iv : ℕ → ℤ) (gSize : ℤ) (tid : ℕ) (g : ℤ) : α :=
  ∑ dd ∈ Finset.range n, ∑ v ∈ Finset.range (2 * support + 1),
    if rowCtr T (iv dd) v = (tid : ℤ) then
      ∑ u ∈ Finset.range (2 * support + 1),
        if g = iu dd + gSize * iv dd - support + gSize * v + u then
          data dd * C (cOffset dd + ((2 * support + 1 : ℕ) : ℤ) * v + u)
        else 0
    else 0

/-- Inner `suppu` loop of `degridKernel` and `degridKernelOMP`
(tConvolveOMP.cc:211-213 and 251-253): `acc += grid[gind+suppu] * C[cind+suppu]`
for `suppu = 0 .. k-1`. -/
def dotLoop (grid C : ℤ → α) (gind cind : ℤ) : ℕ → α → α
  | 0, acc => acc
  | u + 1, acc => dotLoop grid C gind cind u acc + grid (gind + u) * C (cind + u)

/-- The `suppv` loop of `degridKernel` for one data point
(tConvolveOMP.cc:201-218), with the pointers written in closed form per row. -/
def degridPoint (grid C : ℤ → α) (gSize : ℤ) (sSize : ℕ) (gind0 cind0 : ℤ) :
    ℕ → α → α
  | 0, acc => acc
  | v + 1, acc =>
      dotLoop grid C (gind0 + gSize * v) (cind0 + (sSize : ℤ) * v) sSize
        (degridPoint grid C gSize sSize gind0 cind0 v acc)

/-- Sequential gather kernel `degridKernel` (tConvolveOMP.cc:186-221): each
slot `data[dind]`, `dind < n`, is overwritten (`data[dind] = 0.0` first) with
the stencil dot product; slots `dind ≥ n` are untouched.  The loop body reads
only immutable state, so the result is per-slot. -/
def degridKernel (grid : ℤ → α) (gSize : ℤ) (support : ℕ) (C : ℤ → α)
    (cOffset iu iv : ℕ → ℤ) (data : ℕ → α) (n : ℕ) : ℕ → α :=
  fun dind =>
    if dind < n then
      degridPoint grid C gSize (2 * support + 1)
        (iu dind + gSize * iv dind - support) (cOffset dind) (2 * support + 1) 0
    else data dind

/-- Parallel gather kernel `degridKernelOMP` (tConvolveOMP.cc:223-263): the
loop body is identical to `degridKernel`; iterations write disjoint `data`
slots and read only shared immutable state, so the dynamic schedule cannot
change the per-slot result. -/
def degridKernelOMP (grid : ℤ → α) (gSize : ℤ) (support : ℕ) (C : ℤ → α)
    (cOffset iu iv : ℕ → ℤ) (data : ℕ → α) (n : ℕ) : ℕ → α :=
  fun dind =>
    if dind < n then
      degridPoint grid C gSize (2 * support + 1)
        (iu dind + gSize * iv dind - support) (cOffset dind) (2 * support + 1) 0
    else data dind

/-- Model of the C++ `int(x)` cast of a `double`: truncation toward zero. -/
def cInt (x : ℚ) : ℤ := if 0 ≤ x then ⌊x⌋ else ⌈x⌉

/-- Grid anchor of `initCOffset` before recentring (tConvolveOMP.cc:381-385):
`iu[dind] = int(uScaled); if (uScaled < Coord(iu[dind])) iu[dind] -= 1;`. -/
def anchor0 (x : ℚ) : ℤ := if x < (cInt x : ℚ) then cInt x - 1 else cInt x

/-- Oversampling bin of `initCOffset` (tConvolveOMP.cc:387):
`fracu = int(overSample * (uScaled - Coord(iu[dind])))`, taken before the
`gSize/2` recentring. -/
def fracBin (os : ℕ) (x : ℚ) : ℤ := cInt ((os : ℚ) * (x - (anchor0 x : ℚ)))

/-- Recentred grid anchor of `initCOffset` (tConvolveOMP.cc:388):
`iu[dind] += gSize / 2` (C++ integer division). -/
def anchorOf (gSize : ℕ) (x : ℚ) : ℤ := anchor0 x + ((gSize / 2 : ℕ) : ℤ)

/-- Scaled coordinate of `initCOffset` (tConvolveOMP.cc:380):
`freq[chan] * u[i] / cellSize`. -/
def scaled (freqc coord cellSize : ℚ) : ℚ := freqc * coord / cellSize

/-- W-plane bin of `initCOffset` (tConvolveOMP.cc:401-402):
`woff = wSize / 2 + int(wScaled)`, a plain truncating cast with no
negative-direction adjustment (unlike the `iu`/`iv` anchors). -/
def woffOf (wSize : ℕ) (wScaled : ℚ) : ℤ := ((wSize / 2 : ℕ) : ℤ) + cInt wScaled

/-- Kernel-table offset of `initCOffset` (tConvolveOMP.cc:403):
`cOffset[dind] = sSize * sSize * (fracu + overSample * (fracv + overSample * woff))`,
as a function of the already scaled `u`, `v`, `w` coordinates. -/
def cOffsetOf (support os wSize : ℕ) (uS vS wS : ℚ) : ℤ :=
  ((2 * support + 1 : ℕ) : ℤ) * ((2 * support + 1 : ℕ) : ℤ)
    * (fracBin os uS + (os : ℤ) * (fracBin os vS + (os : ℤ) * woffOf wSize wS))

/-- Frequency table set up by the driver (tConvolveOMP.cc:503-505):
`freq[i] = (1.4e9 - 2.0e5 * Coord(i) / Coord(nChan)) / 2.998e8`. -/
def driverFreq (nChan i : ℕ) : ℚ :=
  (1400000000 - 200000 * (i : ℚ) / (nChan : ℚ)) / 299800000

/-- Model of the C++ `static_cast<int>(x)` cast of a `double`: truncation toward zero. -/
noncomputable def cIntR (x : ℝ) : ℤ := if 0 ≤ x then ⌊x⌋ else ⌈x⌉

/-- Stencil half width computed by `initC` (tConvolveOMP.cc:287-288):
`support = static_cast<int>(1.5 * sqrt(abs(baseline) * cellSize * freq[0]) / cellSize)`. -/
noncomputable def supportOf (freq0 cellSize baseline : ℝ) : ℤ :=
  cIntR (1.5 * Real.sqrt (|baseline| * cellSize * freq0) / cellSize)

/-- The `support` value of `initC` as a count (nonnegative whenever
`cellSize > 0`, since the truncated expression is then nonnegative). -/
noncomputable def initCSupport (freq0 cellSize baseline : ℝ) : ℕ :=
  (supportOf freq0 cellSize baseline).toNat

/-- Oversampling factor fixed by `initC` (tConvolveOMP.cc:292). -/
def overSampleInit : ℕ := 8

/-- W cell size computed by `initC` (tConvolveOMP.cc:294):
`wCellSize = 2 * baseline * freq[0] / wSize`. -/
noncomputable def wCellSizeOf (baseline freq0 : ℝ) (wSize : ℕ) : ℝ :=
  2 * baseline * freq0 / (wSize : ℝ)

/-- Plane coordinate `double w = double(k - wSize / 2)` (tConvolveOMP.cc:314). -/
def wPlane (wSize k : ℕ) : ℝ := (k : ℝ) - ((wSize / 2 : ℕ) : ℝ)

/-- Scale factor `fScale = sqrt(abs(w) * wCellSize * freq[0]) / cellSize` (tConvolveOMP.cc:315). -/
noncomputable def fScale (freq0 cellSize wCellSize : ℝ) (wSize k : ℕ) : ℝ :=
  Real.sqrt (|wPlane wSize k| * wCellSize * freq0) / cellSize

/-- Stencil centre `cCenter = (sSize - 1) / 2` (tConvolveOMP.cc:305). -/
def cCenterOf (support : ℕ) : ℕ := (2 * support + 1 - 1) / 2

/-- Squared radial distance `r2` of a table entry (tConvolveOMP.cc:320-323). -/
noncomputable def r2Of (support os osj osi j i : ℕ) : ℝ :=
  ((j : ℝ) - (cCenterOf support : ℝ) + (osj : ℝ) / (os : ℝ)) ^ 2
    + ((i : ℝ) - (cCenterOf support : ℝ) + (osi : ℝ) / (os : ℝ)) ^ 2

/-- One kernel-table entry before normalisation (tConvolveOMP.cc:326-330).
Every stored value has zero imaginary part, so entries are modelled as reals. -/
noncomputable def cEntry (freq0 cellSize wCellSize : ℝ) (support os wSize k osj osi j i : ℕ) : ℝ :=
  if wPlane wSize k ≠ 0 then
    Real.cos (r2Of support os osj osi j i
      / (wPlane wSize k * fScale freq0 cellSize wCellSize wSize k))
  else Real.exp (-r2Of support os osj osi j i)

/-- The flat kernel table built by the fill loops of `initC`
(tConvolveOMP.cc:313-335): the loops store the entry for coordinates
`(k, osj, osi, j, i)` at flat index
`i + sSize*(j + sSize*(osi + overSample*(osj + overSample*k)))`, each flat
index exactly once; `cFlat` reads the entry back off the flat index. -/
noncomputable def cFlat (freq0 cellSize wCellSize : ℝ) (support os wSize : ℕ) (cind : ℕ) : ℝ :=
  cEntry freq0 cellSize wCellSize support os wSize
    (cind / ((2 * support + 1) * (2 * support + 1) * os * os))
    (cind / ((2 * support + 1) * (2 * support + 1) * os) % os)
    (cind / ((2 * support + 1) * (2 * support + 1)) % os)
    (cind / (2 * support + 1) % (2 * support + 1))
    (cind % (2 * support + 1))

/-- Magnitude total `sumC` of `initC` (tConvolveOMP.cc:338-342): sum over
the whole table of `sSize * sSize * overSample * overSample * wSize` entries. -/
noncomputable def sumCOf (freq0 cellSize wCellSize : ℝ) (support os wSize : ℕ) : ℝ :=
  ∑ cind ∈ Finset.range ((2 * support + 1) * (2 * support + 1) * os * os * wSize),
    |cFlat freq0 cellSize wCellSize support os wSize cind|

/-- Normalised kernel table (tConvolveOMP.cc:344-346):
`C[i] *= Value(wSize * overSample * overSample / sumC)`. -/
noncomputable def cNorm (freq0 cellSize wCellSize : ℝ) (support os wSize : ℕ) (cind : ℕ) : ℝ :=
  cFlat freq0 cellSize wCellSize support os wSize cind
    * (((wSize * os * os : ℕ) : ℝ) / sumCOf freq0 cellSize wCellSize support os wSize)

/-! Value lemmas: closed forms for what each loop does to one cell. -/

lemma updAdd_apply (grid : ℤ → α) (i : ℤ) (x : α) (g : ℤ) :
    updAdd grid i x g = if g = i then grid g + x else grid g := rfl

lemma axpyLoop_apply (d : α) (C : ℤ → α) (cind gind : ℤ) (k : ℕ) (grid : ℤ → α) (g : ℤ) :
    axpyLoop d C cind gind k grid g
      = grid g + ∑ u ∈ Finset.range k, if g = gind + u then d * C (cind + u) else 0 := by
  induction k with
  | zero => simp [axpyLoop]
  | succ k ih =>
      rw [axpyLoop, updAdd_apply, ih, Finset.sum_range_succ]
      by_cases h : g = gind + k
      · rw [if_pos h, if_pos h, add_assoc]
      · rw [if_neg h, if_neg h, add_zero]

lemma gridPoint_apply (d : α) (C : ℤ → α) (gSize : ℤ) (sSize : ℕ) (cind0 gind0 : ℤ)
    (r : ℕ) (grid : ℤ → α) (g : ℤ) :
    gridPoint d C gSize sSize cind0 gind0 r grid g
      = grid g + ∑ v ∈ Finset.range r, ∑ u ∈ Finset.range sSize,
          if g = gind0 + gSize * v + u then d * C (cind0 + (sSize : ℤ) * v + u) else 0 := by
  induction r with
  | zero => simp [gridPoint]
  | succ r ih =>
      rw [gridPoint, axpyLoop_apply, ih, Finset.sum_range_succ, add_assoc]

lemma gridLoop_apply (data : ℕ → α) (support : ℕ) (C : ℤ → α) (cOffset iu iv : ℕ → ℤ)
    (gSize : ℤ) (n : ℕ) (grid : ℤ → α) (g : ℤ) :
    gridLoop data support C cOffset iu iv gSize n grid g
      = grid g + ∑ dd ∈ Finset.range n, ∑ v ∈ Finset.range (2 * support + 1),
          ∑ u ∈ Finset.range (2 * support + 1),
            if g = iu dd + gSize * iv dd - support + gSize * v + u then
              data dd * C (cOffset dd + ((2 * support + 1 : ℕ) : ℤ) * v + u)
            else 0 := by
  induction n with
  | zero => simp [gridLoop]
  | succ n ih =>
      rw [gridLoop, gridPoint_apply, ih]
      conv_rhs => rw [Finset.sum_range_succ]
      rw [add_assoc]

lemma gridPointOMP_apply (tid T : ℕ) (d : α) (C : ℤ → α) (gSize : ℤ) (sSize : ℕ)
    (iv0 cind0 gind0 : ℤ) (r : ℕ) (grid : ℤ → α) (g : ℤ) :
    gridPointOMP tid T d C gSize sSize iv0 cind0 gind0 r grid g
      = grid g + ∑ v ∈ Finset.range r,
          if rowCtr T iv0 v = (tid : ℤ) then
            ∑ u ∈ Finset.range sSize,
              if g = gind0 + gSize * v + u then d * C (cind0 + (sSize : ℤ) * v + u) else 0
          else 0 := by
  induction r with
  | zero => simp [gridPointOMP]
  | succ r ih =>
      rw [gridPointOMP]
      by_cases h : rowCtr T iv0 r = (tid : ℤ)
      · rw [if_pos h, axpyLoop_apply, ih, Finset.sum_range_succ, if_pos h, add_assoc]
      · rw [if_neg h, ih, Finset.sum_range_succ, if_neg h, add_zero]

lemma gridLoopOMP_apply (tid T : ℕ) (data : ℕ → α) (support : ℕ) (C : ℤ → α)
    (cOffset iu iv : ℕ → ℤ) (gSize : ℤ) (n : ℕ) (grid : ℤ → α) (g : ℤ) :
    gridLoopOMP tid T data support C cOffset iu iv gSize n grid g
      = grid g + ∑ dd ∈ Finset.range n, ∑ v ∈ Finset.range (2 * support + 1),
          if rowCtr T (iv dd) v = (tid : ℤ) then
            ∑ u ∈ Finset.range (2 * support + 1),
              if g = iu dd + gSize * iv dd - support + gSize * v + u then
                data dd * C (cOffset dd + ((2 * support + 1 : ℕ) : ℤ) * v + u)
              else 0
          else 0 := by
  induction n with
  | zero => simp [gridLoopOMP]
  | succ n ih =>
      rw [gridLoopOMP, gridPointOMP_apply, ih]
      conv_rhs => rw [Finset.sum_range_succ]
      rw [add_assoc]

lemma gridThread_apply (tid T : ℕ) (data : ℕ → α) (n support : ℕ) (C : ℤ → α)
    (cOffset iu iv : ℕ → ℤ) (grid : ℤ → α) (gSize : ℤ) (g : ℤ) :
    gridThread tid T data n support C cOffset iu iv grid gSize g
      = grid g + threadSum T data n support C cOffset iu iv gSize tid g := by
  rw [gridThread, gridLoopOMP_apply, threadSum]

lemma gridThreadsFold_apply (T : ℕ) (data : ℕ → α) (n support : ℕ) (C : ℤ → α)
    (cOffset iu iv : ℕ → ℤ) (gSize : ℤ) (t0 : ℕ) (grid : ℤ → α) (g : ℤ) :
    gridThreadsFold T data n support C cOffset iu iv gSize t0 grid g
      = grid g + ∑ t ∈ Finset.range t0, threadSum T data n support C cOffset iu iv gSize t g := by
  induction t0 with
  | zero => simp [gridThreadsFold]
  | succ t0 ih =>
      rw [gridThreadsFold, gridThread_apply, ih]
      conv_rhs => rw [Finset.sum_range_succ]
      rw [add_assoc]

lemma dotLoop_apply (grid C : ℤ → α) (gind cind : ℤ) (k : ℕ) (acc : α) :
    dotLoop grid C gind cind k acc
      = acc + ∑ u ∈ Finset.range k, grid (gind + u) * C (cind + u) := by
  induction k with
  | zero => simp [dotLoop]
  | succ k ih => rw [dotLoop, ih, Finset.sum_range_succ, add_assoc]

lemma degridPoint_apply (grid C : ℤ → α) (gSize : ℤ) (sSize : ℕ) (gind0 cind0 : ℤ)
    (r : ℕ) (acc : α) :
    degridPoint grid C gSize sSize gind0 cind0 r acc
      = acc + ∑ v ∈ Finset.range r, ∑ u ∈ Finset.range sSize,
          grid (gind0 + gSize * v + u) * C (cind0 + (sSize : ℤ) * v + u) := by
  induction r with
  | zero => simp [degridPoint]
  | succ r ih => rw [degridPoint, dotLoop_apply, ih, Finset.sum_range_succ, add_assoc]

/-- Closed form of the rotating row counter: before stencil row `s` it holds
`(iv0 + s) mod T` (Euclidean remainder), provided `iv0 ≥ 0` and `T ≥ 1`. -/
lemma rowCtr_eq (T : ℕ) (hT : 1 ≤ T) (iv0 : ℤ) (h0 : 0 ≤ iv0) (s : ℕ) :
    rowCtr T iv0 s = (iv0 + s) % T := by
  have hTpos : (0 : ℤ) < T := by exact_mod_cast hT
  induction s with
  | zero => simpa [rowCtr] using Int.tmod_eq_emod h0 (le_of_lt hTpos)
  | succ s ih =>
      have h1 : 0 ≤ (iv0 + s) % T := Int.emod_nonneg _ (ne_of_gt hTpos)
      have h2 : (iv0 + s) % T < T := Int.emod_lt_of_pos _ hTpos
      have hsplit : (iv0 + ((s : ℤ) + 1)) % T = ((iv0 + s) % T + 1) % T := by
        conv_lhs =>
          rw [show iv0 + ((s : ℤ) + 1) = ((iv0 + s) % T + 1) + T * ((iv0 + s) / T) by
            rw [add_comm ((iv0 + s) % T) 1, add_assoc, Int.emod_add_ediv (iv0 + s) T]; ring]
        rw [Int.add_mul_emod_self_left]
      rw [rowCtr, ih]
      by_cases hc : (T : ℤ) ≤ (iv0 + s) % T + 1
      · have he : (iv0 + s) % T + 1 = T := by omega
        rw [if_pos hc]
        push_cast
        rw [hsplit, he, Int.emod_self]
      · rw [if_neg hc]
        push_cast
        rw [hsplit]
        exact (Int.emod_eq_of_lt (by omega) (by omega)).symm

/-- A flat row-major index determines its row and column when the column is
within `[0, gSize)`. -/
lemma flat_row_col_eq {gSize c c' r r' : ℤ} (hg : 0 < gSize)
    (hc0 : 0 ≤ c) (hc1 : c < gSize) (hc0' : 0 ≤ c') (hc1' : c' < gSize)
    (h : c + gSize * r = c' + gSize * r') : r = r' ∧ c = c' := by
  have hd : c - c' = gSize * (r' - r) := by
    have := h
    rw [mul_sub]
    omega
  rcases lt_trichotomy r r' with hlt | heq | hgt
  · exfalso
    have h1 : (1 : ℤ) ≤ r' - r := by omega
    have h2 : gSize * 1 ≤ gSize * (r' - r) := by
      exact mul_le_mul_of_nonneg_left h1 (le_of_lt hg)
    rw [mul_one] at h2
    omega
  · refine ⟨heq, ?_⟩
    rw [heq] at hd
    simp at hd
    omega
  · exfalso
    have h1 : (1 : ℤ) ≤ r - r' := by omega
    have h2 : gSize * 1 ≤ gSize * (r - r') := by
      exact mul_le_mul_of_nonneg_left h1 (le_of_lt hg)
    rw [mul_one] at h2
    have : gSize * (r' - r) ≤ -gSize := by
      rw [show r' - r = -(r - r') by ring, mul_neg]
      omega
    omega

/-- The parallel scatter kernel computes the same grid as the sequential one:
each data point's stencil row `v` is accumulated by exactly one of the `T`
threads, namely the one whose id is `(iv + v) mod T`. -/
lemma gridKernelOMP_eq_gridKernel (T : ℕ) (data : ℕ → α) (n support : ℕ) (C : ℤ → α)
    (cOffset iu iv : ℕ → ℤ) (grid : ℤ → α) (gSize : ℤ)
    (hT : 1 ≤ T) (hiv : ∀ dd < n, 0 ≤ iv dd) :
    gridKernelOMP T data n support C cOffset iu iv grid gSize
      = gridKernel data n support C cOffset iu iv grid gSize := by
  have hTpos : (0 : ℤ) < T := by exact_mod_cast hT
  funext g
  rw [gridKernelOMP, gridThreadsFold_apply, gridKernel, gridLoop_apply]
  congr 1
  unfold threadSum
  rw [Finset.sum_comm]
  apply Finset.sum_congr rfl
  intro dd hdd
  rw [Finset.sum_comm]
  apply Finset.sum_congr rfl
  intro v _
  have h0 : 0 ≤ iv dd := hiv dd (Finset.mem_range.mp hdd)
  have hR0 : 0 ≤ (iv dd + v) % T := Int.emod_nonneg _ (ne_of_gt hTpos)
  have hR1 : (iv dd + v) % T < T := Int.emod_lt_of_pos _ hTpos
  have hcongr : ∀ t ∈ Finset.range T,
      (if rowCtr T (iv dd) v = (t : ℤ) then
        ∑ u ∈ Finset.range (2 * support + 1),
          if g = iu dd + gSize * iv dd - support + gSize * v + u then
            data dd * C (cOffset dd + ((2 * support + 1 : ℕ) : ℤ) * v + u)
          else 0
      else 0)
      = (if ((iv dd + v) % T).toNat = t then
          ∑ u ∈ Finset.range (2 * support + 1),
            if g = iu dd + gSize * iv dd - support + gSize * v + u then
              data dd * C (cOffset dd + ((2 * support + 1 : ℕ) : ℤ) * v + u)
            else 0
        else 0) := by
    intro t _
    rw [rowCtr_eq T hT (iv dd) h0 v]
    congr 1
    apply propext
    constructor
    · intro h
      rw [h]
      simp
    · intro h
      rw [← h, Int.toNat_of_nonneg hR0]
  rw [Finset.sum_congr rfl hcongr, Finset.sum_ite_eq]
  rw [if_pos (Finset.mem_range.mpr (by omega))]

lemma cInt_of_nonneg {x : ℚ} (h : 0 ≤ x) : cInt x = ⌊x⌋ := if_pos h

/-- The truncate-then-adjust idiom of `initCOffset` computes the floor:
`iu = int(uScaled); if (uScaled < iu) iu -= 1;` yields `⌊uScaled⌋` for every
`uScaled`, positive or negative. -/
lemma anchor0_eq_floor (x : ℚ) : anchor0 x = ⌊x⌋ := by
  unfold anchor0
  by_cases h0 : 0 ≤ x
  · rw [cInt_of_nonneg h0, if_neg (by push_neg; exact_mod_cast Int.floor_le x)]
  · push_neg at h0
    rw [show cInt x = ⌈x⌉ from if_neg (not_le.mpr h0)]
    by_cases hI : (⌈x⌉ : ℤ) = ⌊x⌋
    · rw [hI, if_neg (by push_neg; exact_mod_cast Int.floor_le x)]
    · have hlt : ⌊x⌋ < ⌈x⌉ := lt_of_le_of_ne (Int.floor_le_ceil x) (Ne.symm hI)
      have hle : ⌈x⌉ ≤ ⌊x⌋ + 1 := Int.ceil_le_floor_add_one x
      have hEq : (⌈x⌉ : ℤ) = ⌊x⌋ + 1 := by omega
      rw [if_pos]
      · omega
      · rw [hEq]
        push_cast
        exact Int.lt_floor_add_one x

lemma fracBin_eq_floor (os : ℕ) (x : ℚ) :
    fracBin os x = ⌊(os : ℚ) * (x - (⌊x⌋ : ℚ))⌋ := by
  unfold fracBin
  rw [anchor0_eq_floor]
  exact cInt_of_nonneg (by
    have h1 : (0 : ℚ) ≤ x - (⌊x⌋ : ℚ) := by
      have := Int.floor_le x
      linarith
    positivity)

lemma fracBin_bounds (os : ℕ) (hos : 1 ≤ os) (x : ℚ) :
    0 ≤ fracBin os x ∧ fracBin os x ≤ (os : ℤ) - 1 := by
  rw [fracBin_eq_floor]
  have hf0 : (0 : ℚ) ≤ x - (⌊x⌋ : ℚ) := by
    have := Int.floor_le x
    linarith
  have hf1 : x - (⌊x⌋ : ℚ) < 1 := by
    have := Int.lt_floor_add_one x
    linarith
  have hospos : (0 : ℚ) < (os : ℚ) := by exact_mod_cast hos
  constructor
  · exact Int.le_floor.mpr (by positivity)
  · have h1 : (os : ℚ) * (x - (⌊x⌋ : ℚ)) < os := by
      nlinarith
    have h2 : ⌊(os : ℚ) * (x - (⌊x⌋ : ℚ))⌋ < (os : ℤ) :=
      Int.floor_lt.mpr (by push_cast; exact h1)
    omega

lemma cIntR_of_nonneg {x : ℝ} (h : 0 ≤ x) : cIntR x = ⌊x⌋ := if_pos h

lemma driverFreq_zero (nChan : ℕ) : driverFreq nChan 0 = 7000 / 1499 := by
  unfold driverFreq
  norm_num

/-- With the driver's configuration (`cellSize = 5`, `baseline = 2000`,
`freq[0] = 1.4e9 / 2.998e8 = 7000/1499`) `initC` derives `support = 64`. -/
lemma driver_support_eq : supportOf ((7000 : ℝ) / 1499) 5 2000 = 64 := by
  unfold supportOf
  have hX : |(2000 : ℝ)| * 5 * (7000 / 1499) = 70000000 / 1499 := by
    rw [abs_of_nonneg (by norm_num)]
    norm_num
  rw [hX]
  have hs0 : (0 : ℝ) ≤ Real.sqrt (70000000 / 1499) := Real.sqrt_nonneg _
  have hlow : (640 / 3 : ℝ) ≤ Real.sqrt (70000000 / 1499) :=
    (Real.le_sqrt (by norm_num) (by norm_num)).mpr (by norm_num)
  have hhigh : Real.sqrt (70000000 / 1499) < 650 / 3 :=
    (Real.sqrt_lt' (by norm_num)).mpr (by norm_num)
  rw [cIntR_of_nonneg (by positivity)]
  rw [Int.floor_eq_iff]
  constructor
  · push_cast
    linarith
  · push_cast
    linarith

lemma driver_supportOf (nChan : ℕ) :
    supportOf ((driverFreq nChan 0 : ℚ) : ℝ) 5 2000 = 64 := by
  rw [driverFreq_zero]
  rw [show (((7000 / 1499 : ℚ) : ℝ)) = (7000 : ℝ) / 1499 by push_cast; ring]
  exact driver_support_eq

/-- The w-plane `k = wSize / 2` of the table has `w = 0`, so its entries are
`exp(-r2)`. -/
lemma cEntry_center (freq0 cellSize wCellSize : ℝ) (support os wSize : ℕ)
    (osj osi j i : ℕ) :
    cEntry freq0 cellSize wCellSize support os wSize (wSize / 2) osj osi j i
      = Real.exp (-r2Of support os osj osi j i) := by
  unfold cEntry
  rw [if_neg]
  push_neg
  unfold wPlane
  ring

/-- Flat-index decode of the table entry at the start of the `w = 0` plane. -/
lemma cFlat_center (freq0 cellSize wCellSize : ℝ) (support os wSize : ℕ) (hos : 0 < os) :
    cFlat freq0 cellSize wCellSize support os wSize
        ((2 * support + 1) * (2 * support + 1) * os * os * (wSize / 2))
      = Real.exp (-r2Of support os 0 0 0 0) := by
  have hS : 0 < 2 * support + 1 := by omega
  set S := 2 * support + 1 with hSdef
  have e1 : S * S * os * os * (wSize / 2) / (S * S * os * os) = wSize / 2 := by
    rw [mul_comm (S * S * os * os) (wSize / 2)]
    exact Nat.mul_div_cancel (wSize / 2) (by positivity)
  have e2 : S * S * os * os * (wSize / 2) / (S * S * os) % os = 0 := by
    rw [show S * S * os * os * (wSize / 2) = S * S * os * (os * (wSize / 2)) by ring]
    rw [Nat.mul_div_cancel_left _ (by positivity)]
    exact Nat.mul_mod_right os (wSize / 2)
  have e3 : S * S * os * os * (wSize / 2) / (S * S) % os = 0 := by
    rw [show S * S * os * os * (wSize / 2) = S * S * (os * (os * (wSize / 2))) by ring]
    rw [Nat.mul_div_cancel_left _ (by positivity)]
    exact Nat.mul_mod_right os (os * (wSize / 2))
  have e4 : S * S * os * os * (wSize / 2) / S % S = 0 := by
    rw [show S * S * os * os * (wSize / 2) = S * (S * (os * os * (wSize / 2))) by ring]
    rw [Nat.mul_div_cancel_left _ hS]
    exact Nat.mul_mod_right S (os * os * (wSize / 2))
  have e5 : S * S * os * os * (wSize / 2) % S = 0 := by
    rw [show S * S * os * os * (wSize / 2) = S * (S * os * os * (wSize / 2)) by ring]
    exact Nat.mul_mod_right S _
  unfold cFlat
  rw [← hSdef, e1, e2, e3, e4, e5]
  exact cEntry_center freq0 cellSize wCellSize support os wSize 0 0 0 0

/-- The magnitude sum of the raw table is strictly positive: every term is a
magnitude, and the `w = 0` plane contributes `exp(-r2) > 0`. -/
lemma sumCOf_pos (freq0 cellSize wCellSize : ℝ) (support os wSize : ℕ)
    (hos : 0 < os) (hw : 1 ≤ wSize) :
    0 < sumCOf freq0 cellSize wCellSize support os wSize := by
  unfold sumCOf
  apply Finset.sum_pos'
  · intro i _
    exact abs_nonneg _
  · refine ⟨(2 * support + 1) * (2 * support + 1) * os * os * (wSize / 2), ?_, ?_⟩
    · apply Finset.mem_range.mpr
      exact mul_lt_mul_of_pos_left (Nat.div_lt_self (by omega) one_lt_two)
        (by positivity)
    · rw [cFlat_center freq0 cellSize wCellSize support os wSize hos]
      rw [abs_of_pos (Real.exp_pos _)]
      exact Real.exp_pos _

/-! Claim theorems. -/

/-- Claim C1, counterexample to the claimed grid footprint.  At
`support = 1`, `gSize = 7`, `iu = iv = 1` (inside the claimed precondition
range `[support, gSize - support)`), `data = 1`, `C = 1`, `cOffset = 0` and an
all-zero grid, the claim predicts
`grid[(iu - support + 0) + gSize*(iv - support + 0)] = grid[0]` to receive
`data * C[cOffset] = 1`; the code leaves cell `0` unchanged at `0`, because
`gridKernel` anchors the stencil at `iu + gSize*iv - support`, whose rows span
`iv .. iv + 2*support`, not `iv - support .. iv + support`. -/
theorem gridKernel_claimed_footprint_false :
    ((1 : ℕ) : ℤ) ≤ 1 ∧ (1 : ℤ) < 7 - ((1 : ℕ) : ℤ) ∧
    gridKernel (fun _ => (1 : ℤ)) 1 1 (fun _ => 1) (fun _ => 0) (fun _ => 1)
        (fun _ => 1) (fun _ => 0) 7 0
      ≠ (0 : ℤ) + ∑ dd ∈ Finset.range 1, ∑ dv ∈ Finset.range 3, ∑ du ∈ Finset.range 3,
          (if (0 : ℤ) = 1 - ((1 : ℕ) : ℤ) + du + 7 * (1 - ((1 : ℕ) : ℤ) + dv) then
            (1 : ℤ) * 1 else 0) := by
  refine ⟨by decide, by decide, by decide⟩

/-- Claim C1 (amended): the sequential `gridKernel` adds, for every data point
`dd < n` and stencil position `(du, dv)`, the value
`data[dd] * C[cOffset[dd] + (2*support+1)*dv + du]` at flat grid cell
`(iu[dd] - support + du) + gSize * (iv[dd] + dv)` — the stencil is centred in
`u` but anchored at `iv` in `v` — and changes no other cell. -/
theorem gridKernel_scatter (data : ℕ → α) (n support : ℕ) (C : ℤ → α) (nC : ℕ)
    (cOffset iu iv : ℕ → ℤ) (grid : ℤ → α) (gSize : ℤ)
    (hbound : ∀ dd < n, (support : ℤ) ≤ iu dd ∧ iu dd < gSize - support ∧
        (support : ℤ) ≤ iv dd ∧ iv dd < gSize - support)
    (hC : ∀ dd < n, 0 ≤ cOffset dd ∧
        cOffset dd + ((2 * support + 1 : ℕ) : ℤ) ^ 2 ≤ (nC : ℤ))
    (g : ℤ) :
    gridKernel data n support C cOffset iu iv grid gSize g
      = grid g + ∑ dd ∈ Finset.range n, ∑ dv ∈ Finset.range (2 * support + 1),
          ∑ du ∈ Finset.range (2 * support + 1),
            if g = iu dd - support + du + gSize * (iv dd + dv) then
              data dd * C (cOffset dd + ((2 * support + 1 : ℕ) : ℤ) * dv + du)
            else 0 := by
  rw [gridKernel, gridLoop_apply]
  congr 1
  apply Finset.sum_congr rfl
  intro dd _
  apply Finset.sum_congr rfl
  intro dv _
  apply Finset.sum_congr rfl
  intro du _
  rw [show iu dd - (support : ℤ) + du + gSize * (iv dd + dv)
      = iu dd + gSize * iv dd - support + gSize * dv + du by push_cast; ring]

/-- Concrete instance of the amended scatter contract
(`n = 1`, `support = 0`, `gSize = 3`, `iu = iv = 1`, cell `g = 4`). -/
theorem gridKernel_scatter_witness :
    (∀ dd < 1, ((0 : ℕ) : ℤ) ≤ 1 ∧ (1 : ℤ) < 3 - ((0 : ℕ) : ℤ) ∧
        ((0 : ℕ) : ℤ) ≤ 1 ∧ (1 : ℤ) < 3 - ((0 : ℕ) : ℤ)) ∧
    (∀ dd < 1, (0 : ℤ) ≤ 0 ∧ (0 : ℤ) + ((2 * 0 + 1 : ℕ) : ℤ) ^ 2 ≤ ((1 : ℕ) : ℤ)) ∧
    gridKernel (fun _ => (2 : ℤ)) 1 0 (fun _ => 3) (fun _ => 0) (fun _ => 1)
        (fun _ => 1) (fun _ => 5) 3 4
      = 5 + ∑ dd ∈ Finset.range 1, ∑ dv ∈ Finset.range 1, ∑ du ∈ Finset.range 1,
          (if (4 : ℤ) = 1 - ((0 : ℕ) : ℤ) + du + 3 * (1 + dv) then (2 : ℤ) * 3 else 0) :=
  ⟨by decide, by decide,
    gridKernel_scatter (fun _ => 2) 1 0 (fun _ => 3) 1 (fun _ => 0) (fun _ => 1)
      (fun _ => 1) (fun _ => 5) 3 (by decide) (by decide) 4⟩

/-- Claim C2, counterexample to the claimed gather indices.  With
`support = 1`, `gSize = 10`, `iu = iv = 1` (inside the claimed precondition
range), `C = 1` and `grid[g] = g`, the code computes
`data[0] = Σ grid[(iu-1+du) + 10*(iv+dv)] = 189`, whereas the claimed formula
`Σ grid[(iu-1+du) + 10*(iv-1+dv)] * C[...]` evaluates to `99`. -/
theorem degridKernel_claimed_index_false :
    ((1 : ℕ) : ℤ) ≤ 1 ∧ (1 : ℤ) < 10 - ((1 : ℕ) : ℤ) ∧
    degridKernel (fun g : ℤ => g) 10 1 (fun _ => 1) (fun _ => 0) (fun _ => 1)
        (fun _ => 1) (fun _ => 0) 1 0
      ≠ ∑ dv ∈ Finset.range 3, ∑ du ∈ Finset.range 3,
          (fun g : ℤ => g) (1 - ((1 : ℕ) : ℤ) + du + 10 * (1 - ((1 : ℕ) : ℤ) + dv))
            * (fun _ => (1 : ℤ)) (0 + ((2 * 1 + 1 : ℕ) : ℤ) * dv + du) := by
  refine ⟨by decide, by decide, by decide⟩

/-- Claim C2 (amended): `degridKernel` (and likewise `degridKernelOMP`)
overwrites each `data[dd]`, `dd < n`, with
`Σ_{dv,du} grid[(iu[dd] - support + du) + gSize*(iv[dd] + dv)] *
C[cOffset[dd] + (2*support+1)*dv + du]`, accumulated from `0.0`; the result
does not depend on the previous contents of `data[dd]`. -/
theorem degridKernel_gather (grid : ℤ → α) (gSize : ℤ) (support : ℕ) (C : ℤ → α)
    (nC : ℕ) (cOffset iu iv : ℕ → ℤ) (n : ℕ)
    (hbound : ∀ dd < n, (support : ℤ) ≤ iu dd ∧ iu dd < gSize - support ∧
        (support : ℤ) ≤ iv dd ∧ iv dd < gSize - support)
    (hC : ∀ dd < n, 0 ≤ cOffset dd ∧
        cOffset dd + ((2 * support + 1 : ℕ) : ℤ) ^ 2 ≤ (nC : ℤ)) :
    ∀ data : ℕ → α, ∀ dd, dd < n →
      degridKernel grid gSize support C cOffset iu iv data n dd
        = (∑ dv ∈ Finset.range (2 * support + 1), ∑ du ∈ Finset.range (2 * support + 1),
            grid (iu dd - support + du + gSize * (iv dd + dv))
              * C (cOffset dd + ((2 * support + 1 : ℕ) : ℤ) * dv + du))
      ∧ degridKernelOMP grid gSize support C cOffset iu iv data n dd
          = degridKernel grid gSize support C cOffset iu iv data n dd
      ∧ ∀ dataB : ℕ → α,
          degridKernel grid gSize support C cOffset iu iv dataB n dd
            = degridKernel grid gSize support C cOffset iu iv data n dd := by
  intro data dd hdd
  refine ⟨?_, rfl, ?_⟩
  · show (if dd < n then _ else data dd) = _
    rw [if_pos hdd, degridPoint_apply, zero_add]
    apply Finset.sum_congr rfl
    intro dv _
    apply Finset.sum_congr rfl
    intro du _
    rw [show iu dd - (support : ℤ) + du + gSize * (iv dd + dv)
        = iu dd + gSize * iv dd - support + gSize * dv + du by push_cast; ring]
  · intro dataB
    show (if dd < n then _ else dataB dd) = (if dd < n then _ else data dd)
    rw [if_pos hdd, if_pos hdd]

/-- Concrete instance of the amended gather contract
(`n = 1`, `support = 0`, `gSize = 3`, `iu = iv = 1`, `grid[g] = g`). -/
theorem degridKernel_gather_witness :
    (∀ dd < 1, ((0 : ℕ) : ℤ) ≤ 1 ∧ (1 : ℤ) < 3 - ((0 : ℕ) : ℤ) ∧
        ((0 : ℕ) : ℤ) ≤ 1 ∧ (1 : ℤ) < 3 - ((0 : ℕ) : ℤ)) ∧
    (degridKernel (fun g : ℤ => g) 3 0 (fun _ => 1) (fun _ => 0) (fun _ => 1)
        (fun _ => 1) (fun _ => 9) 1 0
      = (∑ dv ∈ Finset.range 1, ∑ du ∈ Finset.range 1,
          (fun g : ℤ => g) (1 - ((0 : ℕ) : ℤ) + du + 3 * (1 + dv))
            * (fun _ => (1 : ℤ)) (0 + ((2 * 0 + 1 : ℕ) : ℤ) * dv + du))
      ∧ degridKernelOMP (fun g : ℤ => g) 3 0 (fun _ => 1) (fun _ => 0) (fun _ => 1)
          (fun _ => 1) (fun _ => 9) 1 0
        = degridKernel (fun g : ℤ => g) 3 0 (fun _ => 1) (fun _ => 0) (fun _ => 1)
            (fun _ => 1) (fun _ => 9) 1 0
      ∧ ∀ dataB : ℕ → ℤ,
          degridKernel (fun g : ℤ => g) 3 0 (fun _ => 1) (fun _ => 0) (fun _ => 1)
              (fun _ => 1) dataB 1 0
            = degridKernel (fun g : ℤ => g) 3 0 (fun _ => 1) (fun _ => 0) (fun _ => 1)
                (fun _ => 1) (fun _ => 9) 1 0) :=
  ⟨by decide,
    degridKernel_gather (fun g : ℤ => g) 3 0 (fun _ => 1) 1 (fun _ => 0) (fun _ => 1)
      (fun _ => 1) 1 (by decide) (by decide) (fun _ => 9) 0 (by decide)⟩

/-- Claim C3, counterexample to the claimed absolute row.  With `T = 1` thread
(`tid = 0`), `support = 1`, `gSize = 10`, `iu = 1`, `iv = 2` (inside the
precondition range), the thread pass changes cell `41 = 1 + 10*4`, which lies
in absolute grid row `4 = iv + 2*support`; no claimed row
`iv + suppv - support` (`suppv < 2*support+1`) equals `4` — the stencil rows
sit at `iv + suppv`, not `iv + suppv - support`. -/
theorem gridKernelOMP_claimed_rows_false :
    ((1 : ℕ) : ℤ) ≤ 1 ∧ (1 : ℤ) + ((1 : ℕ) : ℤ) < 10 ∧
    gridThread 0 1 (fun _ => (1 : ℤ)) 1 1 (fun _ => 1) (fun _ => 0) (fun _ => 1)
        (fun _ => 2) (fun _ => 0) 10 41 ≠ (0 : ℤ)
    ∧ ∀ v : ℕ, v < 3 → (2 : ℤ) + (v : ℤ) - ((1 : ℕ) : ℤ) ≠ 4 := by
  refine ⟨by decide, by decide, by decide, by decide⟩

/-- Claim C3 (amended): in `gridKernelOMP` with `T ≥ 1` threads, stencil row
`v` of data point `dd` — whose cells lie in absolute grid row `iv[dd] + v` —
is accumulated only by the thread with id `(iv[dd] + v) mod T`; consequently a
thread's pass leaves every cell outside its write set unchanged, and the write
sets of distinct threads are disjoint: no grid cell is mutated by two
threads. -/
theorem gridKernelOMP_row_ownership (data : ℕ → α) (n support T : ℕ) (C : ℤ → α)
    (cOffset iu iv : ℕ → ℤ) (gSize : ℤ) (hT : 1 ≤ T) (hg : 0 < gSize)
    (hbound : ∀ dd < n, (support : ℤ) ≤ iu dd ∧ iu dd + support < gSize ∧ 0 ≤ iv dd) :
    (∀ tid : ℕ, ∀ grid : ℤ → α, ∀ g : ℤ,
        ¬ ompWrites support iu iv gSize n T tid g →
        gridThread tid T data n support C cOffset iu iv grid gSize g = grid g)
    ∧ (∀ tid : ℕ, ∀ g : ℤ, ompWrites support iu iv gSize n T tid g →
        ∃ dd, dd < n ∧ ∃ v, v < 2 * support + 1 ∧ (tid : ℤ) = (iv dd + v) % T ∧
          ∃ u, u < 2 * support + 1 ∧ g = iu dd - support + u + gSize * (iv dd + v))
    ∧ (∀ tid tidB : ℕ, ∀ g : ℤ, tid ≠ tidB →
        ¬ (ompWrites support iu iv gSize n T tid g
            ∧ ompWrites support iu iv gSize n T tidB g)) := by
  have hwrite : ∀ tid : ℕ, ∀ g : ℤ, ompWrites support iu iv gSize n T tid g →
      ∃ dd, dd < n ∧ ∃ v, v < 2 * support + 1 ∧ (tid : ℤ) = (iv dd + v) % T ∧
        ∃ u, u < 2 * support + 1 ∧ g = iu dd - support + u + gSize * (iv dd + v) := by
    intro tid g hW
    obtain ⟨dd, hdd, v, hv, u, hu, hrow, hidx⟩ := hW
    refine ⟨dd, hdd, v, hv, ?_, u, hu, ?_⟩
    · rw [← hrow, rowCtr_eq T hT (iv dd) (hbound dd hdd).2.2 v]
    · rw [hidx]
      push_cast
      ring
  refine ⟨?_, hwrite, ?_⟩
  · intro tid grid g hnW
    rw [gridThread_apply]
    have hz : threadSum T data n support C cOffset iu iv gSize tid g = 0 := by
      unfold threadSum
      apply Finset.sum_eq_zero
      intro dd hdd
      apply Finset.sum_eq_zero
      intro v hv
      by_cases hrow : rowCtr T (iv dd) v = (tid : ℤ)
      · rw [if_pos hrow]
        apply Finset.sum_eq_zero
        intro u hu
        rw [if_neg]
        intro hidx
        exact hnW ⟨dd, Finset.mem_range.mp hdd, v, Finset.mem_range.mp hv,
          u, Finset.mem_range.mp hu, hrow, hidx⟩
      · exact if_neg hrow
    rw [hz, add_zero]
  · intro tid tidB g hne ⟨hA, hB⟩
    obtain ⟨dd, hdd, v, hv, hmodA, u, hu, hidxA⟩ := hwrite tid g hA
    obtain ⟨ee, hee, w, hw, hmodB, t, ht, hidxB⟩ := hwrite tidB g hB
    have hbA := hbound dd hdd
    have hbB := hbound ee hee
    have hrows : iv dd + (v : ℤ) = iv ee + (w : ℤ) := by
      have h := @flat_row_col_eq gSize (iu dd - support + u) (iu ee - support + t)
        (iv dd + v) (iv ee + w) hg
        (by omega) (by omega) (by omega) (by omega)
        (by rw [← hidxA, ← hidxB])
      exact h.1
    have : (tid : ℤ) = (tidB : ℤ) := by rw [hmodA, hmodB, hrows]
    exact hne (by exact_mod_cast this)

/-- Concrete instance of the amended row-ownership statement
(`T = 2`, one data point, `support = 1`, `iu = 1`, `iv = 2`, `gSize = 10`). -/
theorem gridKernelOMP_row_ownership_witness :
    1 ≤ 2 ∧ (0 : ℤ) < 10 ∧
    (∀ dd < 1, ((1 : ℕ) : ℤ) ≤ 1 ∧ (1 : ℤ) + ((1 : ℕ) : ℤ) < 10 ∧ (0 : ℤ) ≤ 2) ∧
    ((∀ tid : ℕ, ∀ grid : ℤ → ℤ, ∀ g : ℤ,
        ¬ ompWrites 1 (fun _ => 1) (fun _ => 2) 10 1 2 tid g →
        gridThread tid 2 (fun _ => (1 : ℤ)) 1 1 (fun _ => 1) (fun _ => 0) (fun _ => 1)
          (fun _ => 2) grid 10 g = grid g)
    ∧ (∀ tid : ℕ, ∀ g : ℤ, ompWrites 1 (fun _ => 1) (fun _ => 2) 10 1 2 tid g →
        ∃ dd, dd < 1 ∧ ∃ v : ℕ, v < 2 * 1 + 1 ∧
          (tid : ℤ) = ((fun _ => (2 : ℤ)) dd + (v : ℤ)) % ((2 : ℕ) : ℤ) ∧
          ∃ u : ℕ, u < 2 * 1 + 1 ∧
            g = (fun _ => (1 : ℤ)) dd - ((1 : ℕ) : ℤ) + (u : ℤ)
              + 10 * ((fun _ => (2 : ℤ)) dd + (v : ℤ)))
    ∧ (∀ tid tidB : ℕ, ∀ g : ℤ, tid ≠ tidB →
        ¬ (ompWrites 1 (fun _ => 1) (fun _ => 2) 10 1 2 tid g
            ∧ ompWrites 1 (fun _ => 1) (fun _ => 2) 10 1 2 tidB g))) :=
  ⟨by decide, by decide, by decide,
    gridKernelOMP_row_ownership (fun _ => (1 : ℤ)) 1 1 2 (fun _ => 1) (fun _ => 0)
      (fun _ => 1) (fun _ => 2) 10 (by decide) (by decide) (by decide)⟩

/-- Claim C4: with a common input satisfying the bounds precondition and
zero-initialised grids, the parallel and sequential scatter kernels produce
cell-wise identical grids; in particular the real parts differ by at most
`1e-5`.  (In exact arithmetic the row-ownership scheme makes the per-cell
accumulation order of the two kernels coincide, so the difference is `0`.) -/
theorem gridKernelOMP_matches_sequential (data : ℕ → ℂ) (n support T : ℕ) (C : ℤ → ℂ)
    (nC : ℕ) (cOffset iu iv : ℕ → ℤ) (gSize : ℤ) (hT : 1 ≤ T)
    (hbound : ∀ dd < n, (support : ℤ) ≤ iu dd ∧ iu dd < gSize - support ∧
        (support : ℤ) ≤ iv dd ∧ iv dd < gSize - support)
    (hC : ∀ dd < n, 0 ≤ cOffset dd ∧
        cOffset dd + ((2 * support + 1 : ℕ) : ℤ) ^ 2 ≤ (nC : ℤ))
    (g : ℤ) :
    |(gridKernelOMP T data n support C cOffset iu iv (fun _ => 0) gSize g).re
      - (gridKernel data n support C cOffset iu iv (fun _ => 0) gSize g).re| ≤ 1e-5 := by
  rw [gridKernelOMP_eq_gridKernel T data n support C cOffset iu iv (fun _ => 0) gSize hT
    (fun dd hdd => le_trans (by positivity) (hbound dd hdd).2.2.1)]
  rw [sub_self, abs_zero]
  norm_num

/-- Concrete instance of the parallel/sequential parity claim
(`T = 2`, one data point, `support = 0`, `gSize = 3`, `iu = iv = 1`). -/
theorem gridKernelOMP_matches_sequential_witness :
    1 ≤ 2 ∧
    (∀ dd < 1, ((0 : ℕ) : ℤ) ≤ 1 ∧ (1 : ℤ) < 3 - ((0 : ℕ) : ℤ) ∧
        ((0 : ℕ) : ℤ) ≤ 1 ∧ (1 : ℤ) < 3 - ((0 : ℕ) : ℤ)) ∧
    (∀ dd < 1, (0 : ℤ) ≤ 0 ∧ (0 : ℤ) + ((2 * 0 + 1 : ℕ) : ℤ) ^ 2 ≤ ((1 : ℕ) : ℤ)) ∧
    |(gridKernelOMP 2 (fun _ => (1 : ℂ)) 1 0 (fun _ => 1) (fun _ => 0) (fun _ => 1)
        (fun _ => 1) (fun _ => 0) 3 4).re
      - (gridKernel (fun _ => (1 : ℂ)) 1 0 (fun _ => 1) (fun _ => 0) (fun _ => 1)
          (fun _ => 1) (fun _ => 0) 3 4).re| ≤ 1e-5 :=
  ⟨by decide, by decide, by decide,
    gridKernelOMP_matches_sequential (fun _ => 1) 1 0 2 (fun _ => 1) 1 (fun _ => 0)
      (fun _ => 1) (fun _ => 1) 3 (by decide) (by decide) (by decide) 4⟩

/-- Claim C5, counterexample to the claimed floor of the w bin.  At
`freq = 1`, `w = -1/2`, `wCellSize = 1`, `wSize = 2`, `support = 1`,
`overSample = 8`, `u = v = 0`: the claimed formula with
`woff = wSize/2 + ⌊wScaled⌋ = 1 + (-1) = 0` gives `cOffset = 0`, but the code
truncates `int(wScaled) = int(-0.5) = 0` toward zero, giving `woff = 1` and
`cOffset = 9 * 64 = 576`. -/
theorem cOffset_floor_false :
    cOffsetOf 1 8 2 (scaled 1 0 1) (scaled 1 0 1) (scaled 1 (-(1 / 2)) 1)
      ≠ ((2 * 1 + 1 : ℕ) : ℤ) * ((2 * 1 + 1 : ℕ) : ℤ)
          * (fracBin 8 (scaled 1 0 1) + ((8 : ℕ) : ℤ) * (fracBin 8 (scaled 1 0 1)
              + ((8 : ℕ) : ℤ) * (((2 / 2 : ℕ) : ℤ) + ⌊scaled 1 (-(1 / 2)) 1⌋))) := by
  have h0 : scaled 1 0 1 = 0 := by norm_num [scaled]
  have hw : scaled 1 (-(1 / 2)) 1 = -(1 / 2) := by norm_num [scaled]
  rw [h0, hw]
  unfold cOffsetOf woffOf fracBin anchor0 cInt
  norm_num
  have hc : ⌈(-(1 / 2) : ℚ)⌉ = 0 := by norm_num
  omega

/-- Claim C5 (amended): `initCOffset` computes the w bin as
`woff = wSize/2 + int(wScaled)` where `int` truncates toward zero (it is the
floor only for nonnegative `wScaled`), and sets
`cOffset = (2*support+1)^2 * (fracu + overSample*(fracv + overSample*woff))`
with the floor-based fractional bins of claim C7. -/
theorem cOffset_formula (support os wSize : ℕ) (freqc u v w cellSize wCellSize : ℚ) :
    cOffsetOf support os wSize (scaled freqc u cellSize) (scaled freqc v cellSize)
        (scaled freqc w wCellSize)
      = ((2 * support + 1 : ℕ) : ℤ) * ((2 * support + 1 : ℕ) : ℤ)
          * (⌊(os : ℚ) * (scaled freqc u cellSize - (⌊scaled freqc u cellSize⌋ : ℚ))⌋
            + (os : ℤ) * (⌊(os : ℚ) * (scaled freqc v cellSize - (⌊scaled freqc v cellSize⌋ : ℚ))⌋
            + (os : ℤ) * (((wSize / 2 : ℕ) : ℤ) + cInt (freqc * w / wCellSize)))) := by
  unfold cOffsetOf woffOf
  rw [fracBin_eq_floor, fracBin_eq_floor]
  rfl

/-- Claim C6, counterexample to round-to-nearest.  With `freq[0] = 1`,
`cellSize = 1`, `baseline = 9` the expression is `1.5 * sqrt(9) / 1 = 4.5`;
the code's `static_cast<int>` truncates it to `4`, while rounding to the
nearest integer gives `5`. -/
theorem support_round_false :
    supportOf 1 1 9 ≠ round (1.5 * Real.sqrt (|(9 : ℝ)| * 1 * 1) / 1) := by
  have hs : Real.sqrt (|(9 : ℝ)| * 1 * 1) = 3 := by
    rw [show |(9 : ℝ)| * 1 * 1 = 3 ^ 2 by rw [abs_of_nonneg (by norm_num)]; norm_num]
    exact Real.sqrt_sq (by norm_num)
  have h1 : supportOf 1 1 9 = 4 := by
    unfold supportOf
    rw [hs, cIntR_of_nonneg (by norm_num)]
    rw [show (1.5 * 3 / 1 : ℝ) = 4.5 by norm_num]
    rw [Int.floor_eq_iff]
    constructor
    · norm_num
    · norm_num
  have h2 : round (1.5 * Real.sqrt (|(9 : ℝ)| * 1 * 1) / 1) = 5 := by
    rw [hs, show (1.5 * 3 / 1 : ℝ) = 4.5 by norm_num, round_eq]
    rw [show (4.5 + 1 / 2 : ℝ) = 5 by norm_num]
    rw [show ((5 : ℝ)) = ((5 : ℤ) : ℝ) by norm_num]
    exact Int.floor_intCast 5
  rw [h1, h2]
  decide

/-- Claim C6 (amended): `initC` derives the stencil half width by truncating
`1.5 * sqrt(|baseline| * cellSize * freq[0]) / cellSize` toward zero (for
`cellSize > 0` the expression is nonnegative, so this is its floor, not the
nearest integer), and sets `wCellSize = 2 * baseline * freq[0] / wSize`. -/
theorem support_trunc_formula (freq0 cellSize baseline : ℝ) (wSize : ℕ)
    (hcell : 0 < cellSize) :
    supportOf freq0 cellSize baseline
        = ⌊1.5 * Real.sqrt (|baseline| * cellSize * freq0) / cellSize⌋
    ∧ wCellSizeOf baseline freq0 wSize = 2 * baseline * freq0 / (wSize : ℝ) := by
  constructor
  · unfold supportOf
    exact cIntR_of_nonneg (by positivity)
  · rfl

/-- Concrete instance of the amended support formula
(`freq[0] = 1`, `cellSize = 1`, `baseline = 0`, `wSize = 3`). -/
theorem support_trunc_formula_witness :
    (0 : ℝ) < 1 ∧
    (supportOf 1 1 0 = ⌊1.5 * Real.sqrt (|(0 : ℝ)| * 1 * 1) / 1⌋
      ∧ wCellSizeOf 0 1 3 = 2 * 0 * 1 / ((3 : ℕ) : ℝ)) :=
  ⟨by norm_num, support_trunc_formula 1 1 0 3 (by norm_num)⟩

/-- Claim C7: for every sample and channel, `initCOffset` anchors
`iu = ⌊freq*u/cellSize⌋ + gSize/2` and `iv = ⌊freq*v/cellSize⌋ + gSize/2`,
with the integer part rounding toward negative infinity (the code's
truncate-then-decrement idiom), and fractional bins
`fracu = ⌊overSample * (uScaled - ⌊uScaled⌋)⌋`, likewise `fracv`. -/
theorem anchor_floor_formula (gSize os : ℕ) (freqc u v cellSize : ℚ) :
    anchorOf gSize (scaled freqc u cellSize) = ⌊freqc * u / cellSize⌋ + ((gSize / 2 : ℕ) : ℤ)
    ∧ anchorOf gSize (scaled freqc v cellSize) = ⌊freqc * v / cellSize⌋ + ((gSize / 2 : ℕ) : ℤ)
    ∧ fracBin os (scaled freqc u cellSize)
        = ⌊(os : ℚ) * (freqc * u / cellSize - (⌊freqc * u / cellSize⌋ : ℚ))⌋
    ∧ fracBin os (scaled freqc v cellSize)
        = ⌊(os : ℚ) * (freqc * v / cellSize - (⌊freqc * v / cellSize⌋ : ℚ))⌋ := by
  refine ⟨?_, ?_, ?_, ?_⟩
  · unfold anchorOf
    rw [anchor0_eq_floor]
    rfl
  · unfold anchorOf
    rw [anchor0_eq_floor]
    rfl
  · rw [fracBin_eq_floor]
    rfl
  · rw [fracBin_eq_floor]
    rfl

/-- Scaling step of the normalisation: the magnitude sum of the scaled table
equals `wSize * os * os` whenever the raw magnitude sum is positive. -/
lemma cNorm_sum (freq0 cellSize wCellSize : ℝ) (support os wSize : ℕ)
    (hpos : 0 < sumCOf freq0 cellSize wCellSize support os wSize) :
    ∑ cind ∈ Finset.range ((2 * support + 1) * (2 * support + 1) * os * os * wSize),
      |cNorm freq0 cellSize wCellSize support os wSize cind|
    = ((wSize * os * os : ℕ) : ℝ) := by
  have hconst : (0 : ℝ) ≤ ((wSize * os * os : ℕ) : ℝ)
      / sumCOf freq0 cellSize wCellSize support os wSize := by positivity
  have habs : ∀ cind ∈ Finset.range ((2 * support + 1) * (2 * support + 1) * os * os * wSize),
      |cNorm freq0 cellSize wCellSize support os wSize cind|
      = |cFlat freq0 cellSize wCellSize support os wSize cind|
          * (((wSize * os * os : ℕ) : ℝ)
              / sumCOf freq0 cellSize wCellSize support os wSize) := by
    intro cind _
    unfold cNorm
    rw [abs_mul, abs_of_nonneg hconst]
  rw [Finset.sum_congr rfl habs, ← Finset.sum_mul]
  have hS : ∑ cind ∈ Finset.range ((2 * support + 1) * (2 * support + 1) * os * os * wSize),
      |cFlat freq0 cellSize wCellSize support os wSize cind|
      = sumCOf freq0 cellSize wCellSize support os wSize := rfl
  rw [hS, mul_comm, div_mul_cancel₀ _ (ne_of_gt hpos)]

/-- Claim C8: after `initC` (with its derived `support`, oversample factor `8`
and `wCellSize`), the sum of magnitudes of the normalised kernel table divided
by `wSize * overSample²` equals `1` exactly, for every configuration with
`wSize ≥ 1` and positive `cellSize`, `freq[0]`, `baseline` (the configurations
on which `initC` is meaningfully run). -/
theorem cNorm_sum_one (freq0 cellSize baseline : ℝ) (wSize : ℕ)
    (hw : 1 ≤ wSize) (hcell : 0 < cellSize) (hf : 0 < freq0) (hb : 0 < baseline) :
    (∑ cind ∈ Finset.range ((2 * initCSupport freq0 cellSize baseline + 1)
          * (2 * initCSupport freq0 cellSize baseline + 1)
          * overSampleInit * overSampleInit * wSize),
        |cNorm freq0 cellSize (wCellSizeOf baseline freq0 wSize)
          (initCSupport freq0 cellSize baseline) overSampleInit wSize cind|)
      / ((wSize : ℝ) * (overSampleInit : ℝ) ^ 2) = 1 := by
  have hpos := sumCOf_pos freq0 cellSize (wCellSizeOf baseline freq0 wSize)
    (initCSupport freq0 cellSize baseline) overSampleInit wSize
    (by norm_num [overSampleInit]) hw
  rw [cNorm_sum freq0 cellSize (wCellSizeOf baseline freq0 wSize)
    (initCSupport freq0 cellSize baseline) overSampleInit wSize hpos]
  have hwpos : (0 : ℝ) < (wSize : ℝ) := by
    have : 0 < wSize := hw
    exact_mod_cast this
  rw [div_eq_one_iff_eq (by norm_num [overSampleInit]; positivity)]
  push_cast [overSampleInit]
  ring

/-- Concrete instance of the normalisation claim
(`freq[0] = cellSize = baseline = 1`, `wSize = 1`). -/
theorem cNorm_sum_one_witness :
    1 ≤ 1 ∧ (0 : ℝ) < 1 ∧
    (∑ cind ∈ Finset.range ((2 * initCSupport 1 1 1 + 1) * (2 * initCSupport 1 1 1 + 1)
          * overSampleInit * overSampleInit * 1),
        |cNorm 1 1 (wCellSizeOf 1 1 1) (initCSupport 1 1 1) overSampleInit 1 cind|)
      / (((1 : ℕ) : ℝ) * (overSampleInit : ℝ) ^ 2) = 1 :=
  ⟨le_refl 1, by norm_num, cNorm_sum_one 1 1 1 1 (le_refl 1) (by norm_num) (by norm_num)
    (by norm_num)⟩

lemma driverFreq_bounds (nChan chan : ℕ) (hchan : chan < nChan) :
    0 < driverFreq nChan chan ∧ driverFreq nChan chan ≤ 7000 / 1499 := by
  unfold driverFreq
  have hn : (0 : ℚ) < (nChan : ℚ) := by
    have : 0 < nChan := Nat.pos_of_ne_zero (by omega)
    exact_mod_cast this
  have h0 : (0 : ℚ) ≤ (chan : ℚ) / (nChan : ℚ) := by positivity
  have h1 : (chan : ℚ) / (nChan : ℚ) < 1 := by
    rw [div_lt_one hn]
    exact_mod_cast hchan
  rw [mul_div_assoc]
  constructor
  · apply div_pos
    · nlinarith
    · norm_num
  · rw [div_le_div_iff (by norm_num) (by norm_num)]
    nlinarith

/-- Any sample scaled by a driver frequency lands within `934` cells of the
grid centre when its coordinate is at most `baseline/2 = 1000`. -/
lemma driver_anchor_bounds (nChan chan : ℕ) (hchan : chan < nChan)
    (x : ℚ) (hx : |x| ≤ 1000) :
    1114 ≤ anchorOf 4096 (scaled (driverFreq nChan chan) x 5)
    ∧ anchorOf 4096 (scaled (driverFreq nChan chan) x 5) ≤ 2981 := by
  obtain ⟨hf0, hf1⟩ := driverFreq_bounds nChan chan hchan
  have hscaled : |scaled (driverFreq nChan chan) x 5| ≤ 1400000 / 1499 := by
    unfold scaled
    rw [abs_div, abs_mul, abs_of_pos hf0]
    rw [show |(5 : ℚ)| = 5 by norm_num]
    rw [div_le_div_iff (by norm_num) (by norm_num)]
    have hxabs : (0 : ℚ) ≤ |x| := abs_nonneg x
    nlinarith
  have habs := abs_le.mp hscaled
  have hfl : (-934 : ℤ) ≤ ⌊scaled (driverFreq nChan chan) x 5⌋ := by
    apply Int.le_floor.mpr
    push_cast
    nlinarith [habs.1]
  have hfu : ⌊scaled (driverFreq nChan chan) x 5⌋ < 934 := by
    apply Int.floor_lt.mpr
    push_cast
    nlinarith [habs.2]
  unfold anchorOf
  rw [anchor0_eq_floor]
  norm_num
  omega

/-- Claim C9: under the driver configuration (`gSize = 4096`, `cellSize = 5`,
`baseline = 2000`, the driver's frequency table) and for every sample with
`|u|, |v|, |w| ≤ baseline/2 = 1000`, `initCOffset` places the anchors in
`[support, gSize - support)` (with `support = 64` derived by `initC`), and
every flat grid index formed by the kernels over the stencil —
`(iu - support + du) + gSize * (iv + dv)`, `0 ≤ du, dv ≤ 2*support` — lies
inside the `gSize * gSize` grid. -/
theorem driver_offsets_in_bounds (nChan chan : ℕ) (hchan : chan < nChan)
    (u v w : ℚ) (hu : |u| ≤ 1000) (hv : |v| ≤ 1000) (hw : |w| ≤ 1000)
    (s : ℤ) (hs : s = supportOf ((driverFreq nChan 0 : ℚ) : ℝ) 5 2000) :
    (s ≤ anchorOf 4096 (scaled (driverFreq nChan chan) u 5)
      ∧ anchorOf 4096 (scaled (driverFreq nChan chan) u 5) < 4096 - s)
    ∧ (s ≤ anchorOf 4096 (scaled (driverFreq nChan chan) v 5)
      ∧ anchorOf 4096 (scaled (driverFreq nChan chan) v 5) < 4096 - s)
    ∧ ∀ du dv : ℤ, 0 ≤ du → du ≤ 2 * s → 0 ≤ dv → dv ≤ 2 * s →
        0 ≤ anchorOf 4096 (scaled (driverFreq nChan chan) u 5) - s + du
              + 4096 * (anchorOf 4096 (scaled (driverFreq nChan chan) v 5) + dv)
        ∧ anchorOf 4096 (scaled (driverFreq nChan chan) u 5) - s + du
              + 4096 * (anchorOf 4096 (scaled (driverFreq nChan chan) v 5) + dv)
            < 4096 * 4096 := by
  rw [driver_supportOf nChan] at hs
  obtain ⟨huL, huU⟩ := driver_anchor_bounds nChan chan hchan u hu
  obtain ⟨hvL, hvU⟩ := driver_anchor_bounds nChan chan hchan v hv
  subst hs
  refine ⟨⟨by omega, by omega⟩, ⟨by omega, by omega⟩, ?_⟩
  intro du dv h1 h2 h3 h4
  constructor
  · omega
  · omega

/-- Concrete instance of the driver bounds claim: the boundary sample
`u = v = w = baseline/2 = 1000` with one channel. -/
theorem driver_offsets_in_bounds_witness :
    0 < 1 ∧ |(1000 : ℚ)| ≤ 1000 ∧
    (64 : ℤ) = supportOf ((driverFreq 1 0 : ℚ) : ℝ) 5 2000 ∧
    ((64 ≤ anchorOf 4096 (scaled (driverFreq 1 0) 1000 5)
      ∧ anchorOf 4096 (scaled (driverFreq 1 0) 1000 5) < 4096 - 64)
    ∧ (64 ≤ anchorOf 4096 (scaled (driverFreq 1 0) 1000 5)
      ∧ anchorOf 4096 (scaled (driverFreq 1 0) 1000 5) < 4096 - 64)
    ∧ ∀ du dv : ℤ, 0 ≤ du → du ≤ 2 * 64 → 0 ≤ dv → dv ≤ 2 * 64 →
        0 ≤ anchorOf 4096 (scaled (driverFreq 1 0) 1000 5) - 64 + du
              + 4096 * (anchorOf 4096 (scaled (driverFreq 1 0) 1000 5) + dv)
        ∧ anchorOf 4096 (scaled (driverFreq 1 0) 1000 5) - 64 + du
              + 4096 * (anchorOf 4096 (scaled (driverFreq 1 0) 1000 5) + dv)
            < 4096 * 4096) :=
  ⟨by norm_num, by norm_num, (driver_supportOf 1).symm,
    driver_offsets_in_bounds 1 0 (by norm_num) 1000 1000 1000 (by norm_num) (by norm_num)
      (by norm_num) 64 (driver_supportOf 1).symm⟩

/-- Claim C10: whenever the computed w bin lies in `[0, wSize)`, the
fractional bins lie in `[0, overSample - 1]`, the table offset satisfies
`0 ≤ cOffset ≤ C.size() - (2*support+1)²` with
`C.size() = (2*support+1)² * overSample² * wSize` as allocated by `initC`,
and every kernel-table index `cOffset + (2*support+1)*dv + du` read by
`gridKernel`/`degridKernel` over the stencil is within the table bounds. -/
theorem cOffset_table_bounds (support os wSize : ℕ) (uS vS wS : ℚ) (hos : 1 ≤ os)
    (hwoff : 0 ≤ woffOf wSize wS ∧ woffOf wSize wS < (wSize : ℤ)) :
    (0 ≤ fracBin os uS ∧ fracBin os uS ≤ (os : ℤ) - 1)
    ∧ (0 ≤ fracBin os vS ∧ fracBin os vS ≤ (os : ℤ) - 1)
    ∧ 0 ≤ cOffsetOf support os wSize uS vS wS
    ∧ cOffsetOf support os wSize uS vS wS
        + ((2 * support + 1 : ℕ) : ℤ) * ((2 * support + 1 : ℕ) : ℤ)
        ≤ ((2 * support + 1 : ℕ) : ℤ) * ((2 * support + 1 : ℕ) : ℤ)
            * (os : ℤ) * (os : ℤ) * (wSize : ℤ)
    ∧ ∀ dv du : ℕ, dv < 2 * support + 1 → du < 2 * support + 1 →
        0 ≤ cOffsetOf support os wSize uS vS wS
              + ((2 * support + 1 : ℕ) : ℤ) * dv + du
        ∧ cOffsetOf support os wSize uS vS wS
              + ((2 * support + 1 : ℕ) : ℤ) * dv + du
            < ((2 * support + 1 : ℕ) : ℤ) * ((2 * support + 1 : ℕ) : ℤ)
                * (os : ℤ) * (os : ℤ) * (wSize : ℤ) := by
  obtain ⟨hW0, hW1⟩ := hwoff
  have hu := fracBin_bounds os hos uS
  have hv := fracBin_bounds os hos vS
  have ho : (1 : ℤ) ≤ (os : ℤ) := by exact_mod_cast hos
  have hS : (1 : ℤ) ≤ ((2 * support + 1 : ℕ) : ℤ) := by
    have : 1 ≤ 2 * support + 1 := by omega
    exact_mod_cast this
  set o : ℤ := (os : ℤ)
  set S : ℤ := ((2 * support + 1 : ℕ) : ℤ)
  set W : ℤ := woffOf wSize wS
  set Fu : ℤ := fracBin os uS
  set Fv : ℤ := fracBin os vS
  have hinner0 : 0 ≤ Fu + o * (Fv + o * W) := by
    have h1 : 0 ≤ o * W := mul_nonneg (by omega) hW0
    have h2 : 0 ≤ Fv + o * W := by omega
    have h3 : 0 ≤ o * (Fv + o * W) := mul_nonneg (by omega) h2
    omega
  have hinner1 : Fu + o * (Fv + o * W) + 1 ≤ o * o * (wSize : ℤ) := by
    have hWle : W ≤ (wSize : ℤ) - 1 := by omega
    have h1 : o * W ≤ o * ((wSize : ℤ) - 1) :=
      mul_le_mul_of_nonneg_left hWle (by omega)
    have h2 : Fv + o * W ≤ (o - 1) + o * ((wSize : ℤ) - 1) := by omega
    have h3 : o * (Fv + o * W) ≤ o * ((o - 1) + o * ((wSize : ℤ) - 1)) :=
      mul_le_mul_of_nonneg_left h2 (by omega)
    nlinarith [hu.2]
  have hcoff : cOffsetOf support os wSize uS vS wS = S * S * (Fu + o * (Fv + o * W)) := rfl
  have hc0 : 0 ≤ cOffsetOf support os wSize uS vS wS := by
    rw [hcoff]
    exact mul_nonneg (mul_nonneg (by omega) (by omega)) hinner0
  have hc1 : cOffsetOf support os wSize uS vS wS + S * S
      ≤ S * S * o * o * (wSize : ℤ) := by
    rw [hcoff]
    have h1 : S * S * (Fu + o * (Fv + o * W)) + S * S
        = S * S * ((Fu + o * (Fv + o * W)) + 1) := by ring
    rw [h1]
    have h2 : S * S * ((Fu + o * (Fv + o * W)) + 1) ≤ S * S * (o * o * (wSize : ℤ)) :=
      mul_le_mul_of_nonneg_left hinner1 (mul_nonneg (by omega) (by omega))
    calc S * S * ((Fu + o * (Fv + o * W)) + 1)
        ≤ S * S * (o * o * (wSize : ℤ)) := h2
      _ = S * S * o * o * (wSize : ℤ) := by ring
  refine ⟨hu, hv, hc0, hc1, ?_⟩
  intro dv du hdv hdu
  have hdv' : (dv : ℤ) ≤ S - 1 := by
    have h : (dv : ℤ) < S := by
      show (dv : ℤ) < ((2 * support + 1 : ℕ) : ℤ)
      exact_mod_cast hdv
    omega
  have hdu' : (du : ℤ) ≤ S - 1 := by
    have h : (du : ℤ) < S := by
      show (du : ℤ) < ((2 * support + 1 : ℕ) : ℤ)
      exact_mod_cast hdu
    omega
  have hdv0 : (0 : ℤ) ≤ (dv : ℤ) := Int.natCast_nonneg dv
  have hdu0 : (0 : ℤ) ≤ (du : ℤ) := Int.natCast_nonneg du
  have hrow : S * (dv : ℤ) ≤ S * (S - 1) :=
    mul_le_mul_of_nonneg_left hdv' (by omega)
  have hring : S * (S - 1) + S = S * S := by ring
  constructor
  · have : 0 ≤ S * (dv : ℤ) := mul_nonneg (by omega) hdv0
    omega
  · omega

/-- Concrete instance of the table-bounds claim
(`support = 1`, `overSample = 8`, `wSize = 1`, zero scaled coordinates). -/
theorem cOffset_table_bounds_witness :
    1 ≤ 8 ∧ (0 ≤ woffOf 1 0 ∧ woffOf 1 0 < ((1 : ℕ) : ℤ)) ∧
    ((0 ≤ fracBin 8 0 ∧ fracBin 8 0 ≤ ((8 : ℕ) : ℤ) - 1)
    ∧ (0 ≤ fracBin 8 0 ∧ fracBin 8 0 ≤ ((8 : ℕ) : ℤ) - 1)
    ∧ 0 ≤ cOffsetOf 1 8 1 0 0 0
    ∧ cOffsetOf 1 8 1 0 0 0 + ((2 * 1 + 1 : ℕ) : ℤ) * ((2 * 1 + 1 : ℕ) : ℤ)
        ≤ ((2 * 1 + 1 : ℕ) : ℤ) * ((2 * 1 + 1 : ℕ) : ℤ)
            * ((8 : ℕ) : ℤ) * ((8 : ℕ) : ℤ) * ((1 : ℕ) : ℤ)
    ∧ ∀ dv du : ℕ, dv < 2 * 1 + 1 → du < 2 * 1 + 1 →
        0 ≤ cOffsetOf 1 8 1 0 0 0 + ((2 * 1 + 1 : ℕ) : ℤ) * dv + du
        ∧ cOffsetOf 1 8 1 0 0 0 + ((2 * 1 + 1 : ℕ) : ℤ) * dv + du
            < ((2 * 1 + 1 : ℕ) : ℤ) * ((2 * 1 + 1 : ℕ) : ℤ)
                * ((8 : ℕ) : ℤ) * ((8 : ℕ) : ℤ) * ((1 : ℕ) : ℤ)) :=
  ⟨by norm_num, ⟨by norm_num [woffOf, cInt], by norm_num [woffOf, cInt]⟩,
    cOffset_table_bounds 1 8 1 0 0 0 (by norm_num)
      ⟨by norm_num [woffOf, cInt], by norm_num [woffOf, cInt]⟩⟩

end TConvolveOMP
